import Mathlib

/-!
Shallow embedding of `.github/script/generate_services_table.py`.

The script reads per-service `__init__.py` files, extracts five attributes
with `re.search`, filters deprecated services, and renders a markdown table.

Modelling notes:
* File contents are `Option String`: `none` models a read/decode failure
  (the `except` branch of `extract_service_info`).
* The regex patterns used by the script are simple enough to admit a
  deterministic embedding: in `_stream_type\s*=\s*["\'](\w+)["\']` the
  greedy `\s*` is followed by a character not in `\s`, and the greedy
  `\w+` (resp. `[\w\s]+`) is followed by a quote character that is not in
  the repeated class, so no backtracking can produce a different match and
  each anchored attempt is a function.  `re.search` semantics (leftmost
  match) is the scan `reSearch` below, which tries every start position
  from the left.
* Character classes are the ASCII fragments of Python's Unicode classes
  (`\w`, `\s`, `str.lower`, `str.title`); all concrete inputs considered
  here are ASCII.
* Python `sorted` is a stable sort; a stable sort's output is uniquely
  determined by the key order, so `List.insertionSort` (also stable, ties
  keep first-argument order) computes the same list.
-/

namespace GenServicesTable

/-- ASCII fragment of the Python regex class `\w` (letters, digits, underscore). -/
def isWordChar (c : Char) : Bool := c.isAlphanum || c = '_'

/-- ASCII fragment of the Python regex class `\s` (space, TAB, LF, VT, FF, CR). -/
def isSpaceChar (c : Char) : Bool :=
  c = ' ' || c = '\t' || c = '\n' || c = '\r' || c.toNat = 11 || c.toNat = 12

/-- The single-quote character (code point 39). -/
def squote : Char := Char.ofNat 39

/-- The regex class `["\']`: a double or single quote. -/
def isQuoteChar (c : Char) : Bool := c = '"' || c = squote

/-- The class `[\w\s]` used by the `_maxResolution` and `_region` patterns. -/
def isWordOrSpaceChar (c : Char) : Bool := isWordChar c || isSpaceChar c

/-- Anchored tail of the boolean patterns `\s*=\s*(True|False)`:
after the attribute name, skip spaces, require `=`, skip spaces, then the
alternation tries the literal `True` first, then `False`. -/
def matchBoolTail (s : List Char) : Option Bool :=
  match s.dropWhile isSpaceChar with
  | '=' :: rest =>
    let s2 := rest.dropWhile isSpaceChar
    if List.isPrefixOf "True".data s2 then some true
    else if List.isPrefixOf "False".data s2 then some false
    else none
  | _ => none

/-- Anchored tail of the string patterns `\s*=\s*["\'](CLASS+)["\']`:
after the attribute name, skip spaces, require `=`, skip spaces, require a
quote, capture the maximal nonempty run of `allowed` characters, require a
quote after it.  (Quotes are not in either repeated class, so the greedy
run followed by a one-character quote check is exactly the regex match.) -/
def matchStrTail (allowed : Char → Bool) (s : List Char) : Option (List Char) :=
  match s.dropWhile isSpaceChar with
  | '=' :: rest =>
    match rest.dropWhile isSpaceChar with
    | q :: rest2 =>
      if isQuoteChar q then
        if (rest2.takeWhile allowed).isEmpty then none
        else
          match rest2.drop (rest2.takeWhile allowed).length with
          | q2 :: _ => if isQuoteChar q2 then some (rest2.takeWhile allowed)
                       else none
          | [] => none
      else none
    | [] => none
  | _ => none

/-- One anchored attempt of a whole pattern at the start of `s`: the literal
attribute name followed by its tail matcher. -/
def matchAttrAt {α : Type} (attr : List Char) (tail : List Char → Option α)
    (s : List Char) : Option α :=
  if List.isPrefixOf attr s then tail (List.drop attr.length s) else none

/-- `re.search`: try the anchored pattern at each position from the left,
return the first success. -/
def reSearch {α : Type} (attr : List Char) (tail : List Char → Option α) :
    List Char → Option α
  | [] => matchAttrAt attr tail []
  | c :: rest =>
    match matchAttrAt attr tail (c :: rest) with
    | some v => some v
    | none => reSearch attr tail rest

/-- The anchored attempt at position `i` of `content` (used to state
leftmost-match properties of `reSearch`). -/
def matchBoolAt (attr : String) (content : String) (i : Nat) : Option Bool :=
  matchAttrAt attr.data matchBoolTail (List.drop i content.data)

/-- The anchored attempt of a quoted-string pattern at position `i`. -/
def matchStrAt (attr : String) (allowed : Char → Bool) (content : String)
    (i : Nat) : Option (List Char) :=
  matchAttrAt attr.data (matchStrTail allowed) (List.drop i content.data)

/-- The tuple produced by `extract_service_info`
(`service_name, stream_type, drm, deprecate, max_resolution, region`). -/
structure ServiceRecord where
  service_name : String
  stream_type : String
  drm : Bool
  deprecate : Bool
  max_resolution : String
  region : String
deriving DecidableEq

/-- `extract_service_info`.  The caller passes the parent-directory name
(`init_file.parent.name`) and the file text, or `none` when `open`/`read`
raised: in that case every field keeps the default set before the `try`. -/
def extract_service_info (service_name : String) (content : Option String) :
    ServiceRecord :=
  match content with
  | none =>
    { service_name := service_name, stream_type := "N/A", drm := false,
      deprecate := false, max_resolution := "N/A", region := "N/A" }
  | some text =>
    let cs := text.data
    let stream_type :=
      match reSearch "_stream_type".data (matchStrTail isWordChar) cs with
      | some v => String.mk v
      | none => "N/A"
    let drm :=
      match reSearch "_drm".data matchBoolTail cs with
      | some b => b
      | none => false
    let deprecate :=
      match reSearch "_deprecate".data matchBoolTail cs with
      | some b => b
      | none => false
    let max_resolution :=
      match reSearch "_maxResolution".data (matchStrTail isWordOrSpaceChar) cs with
      | some v => String.mk v
      | none => "N/A"
    let region :=
      match reSearch "_region".data (matchStrTail isWordOrSpaceChar) cs with
      | some v => String.mk v
      | none => "N/A"
    { service_name := service_name, stream_type := stream_type, drm := drm,
      deprecate := deprecate, max_resolution := max_resolution, region := region }

example :
    extract_service_info "amazon_prime"
      (some "_stream_type = \"HLS\"\n_drm = True\n_deprecate = False\n_maxResolution = \"1080p\"\n_region = \"IT\"") =
    { service_name := "amazon_prime", stream_type := "HLS", drm := true,
      deprecate := false, max_resolution := "1080p", region := "IT" } := by
  decide

example :
    extract_service_info "x" (some "nothing recognized here") =
    { service_name := "x", stream_type := "N/A", drm := false,
      deprecate := false, max_resolution := "N/A", region := "N/A" } := by
  decide

/-- The 5-tuples `(service_name, stream_type, drm, max_resolution, region)`
that `main` hands to `generate_markdown_table`. -/
abbrev SvcTuple : Type := String × String × Bool × String × String

/-- Python string `<=`: lexicographic on code points. -/
def pyStrLe : List Char → List Char → Bool
  | [], _ => true
  | _ :: _, [] => false
  | a :: as, b :: bs =>
    if a.toNat < b.toNat then true
    else if b.toNat < a.toNat then false
    else pyStrLe as bs

/-- The sort key `x[0].lower()` (ASCII fragment of `str.lower`). -/
def lowerKey (s : String) : List Char := s.data.map Char.toLower

/-- The order `sorted(services, key=lambda x: x[0].lower())` sorts by. -/
def sortLe (a b : SvcTuple) : Prop := pyStrLe (lowerKey a.1) (lowerKey b.1) = true

instance : DecidableRel sortLe := fun a b =>
  inferInstanceAs (Decidable (pyStrLe (lowerKey a.1) (lowerKey b.1) = true))

/-- `sorted(services, key=lambda x: x[0].lower())`: Python sorted is stable,
so its output equals that of any stable sort over the same key order. -/
def sortServices (services : List SvcTuple) : List SvcTuple :=
  List.insertionSort sortLe services

/-- `str.replace` with single-character arguments is a character map. -/
def replaceUnderscores (s : String) : String :=
  String.mk (s.data.map (fun c => if c = '_' then ' ' else c))

/-- ASCII `str.title`: an alphabetic character is uppercased when the
previous character is not cased (tracked by the flag), lowercased
otherwise; other characters pass through and reset the flag. -/
def pyTitleGo : Bool → List Char → List Char
  | _, [] => []
  | prevCased, c :: rest =>
    (if c.isAlpha then (if prevCased then c.toLower else c.toUpper) else c)
      :: pyTitleGo c.isAlpha rest

/-- `str.title()` on the whole string (no character precedes the first). -/
def pyTitle (s : String) : String := String.mk (pyTitleGo false s.data)

/-- One row of `table_data`:
`(display_name, stream_type, drm_icon, max_resolution, region)`. -/
abbrev RowTuple : Type := String × String × String × String × String

/-- The per-record display transform inside `generate_markdown_table`. -/
def displayRow (svc : SvcTuple) : RowTuple :=
  (pyTitle (replaceUnderscores svc.1), svc.2.1,
    if svc.2.2.1 then "✅" else "❌", svc.2.2.2.1, svc.2.2.2.2)

/-- `table_data`: the sorted services mapped through the display transform. -/
def table_data (services : List SvcTuple) : List RowTuple :=
  (sortServices services).map displayRow

def col1_header : String := "Site Name"
def col2_header : String := "Stream Type"
def col3_header : String := "DRM"
def col4_header : String := "Max Resolution"
def col5_header : String := "Region"

/-- `max_col1`: starts at the header length, then takes the max with every
row value length (the `for` loop of `max` updates is a left fold). -/
def max_col1 (td : List RowTuple) : Nat :=
  td.foldl (fun m r => max m r.1.length) col1_header.length

def max_col2 (td : List RowTuple) : Nat :=
  td.foldl (fun m r => max m r.2.1.length) col2_header.length

def max_col3 (td : List RowTuple) : Nat :=
  td.foldl (fun m r => max m r.2.2.1.length) col3_header.length

def max_col4 (td : List RowTuple) : Nat :=
  td.foldl (fun m r => max m r.2.2.2.1.length) col4_header.length

def max_col5 (td : List RowTuple) : Nat :=
  td.foldl (fun m r => max m r.2.2.2.2.length) col5_header.length

/-- `str.ljust`: pad on the right with spaces to the width (no-op when the
string is already at least that long). -/
def pyLjust (s : String) (w : Nat) : String :=
  s ++ String.mk (List.replicate (w - s.length) ' ')

/-- The bar-delimited row format shared by the header row and data rows:
`| cell1 | cell2 | cell3 | cell4 | cell5 |` with each cell left-justified. -/
def rowLine (w1 w2 w3 w4 w5 : Nat) (r : RowTuple) : String :=
  "| " ++ pyLjust r.1 w1 ++ " | " ++ pyLjust r.2.1 w2 ++ " | " ++
    pyLjust r.2.2.1 w3 ++ " | " ++ pyLjust r.2.2.2.1 w4 ++ " | " ++
    pyLjust r.2.2.2.2 w5 ++ " |"

/-- The separator row: `|` joined runs of `-` of length width + 2. -/
def separatorLine (w1 w2 w3 w4 w5 : Nat) : String :=
  "|" ++ String.mk (List.replicate (w1 + 2) '-') ++
  "|" ++ String.mk (List.replicate (w2 + 2) '-') ++
  "|" ++ String.mk (List.replicate (w3 + 2) '-') ++
  "|" ++ String.mk (List.replicate (w4 + 2) '-') ++
  "|" ++ String.mk (List.replicate (w5 + 2) '-') ++ "|"

/-- Every line of the document up to and including the data rows
(everything before the timestamp-independent trailing block). -/
def frontLines (services : List SvcTuple) : List String :=
  let td := table_data services
  let w1 := max_col1 td
  let w2 := max_col2 td
  let w3 := max_col3 td
  let w4 := max_col4 td
  let w5 := max_col5 td
  ["# Services Overview", ""] ++
    [rowLine w1 w2 w3 w4 w5
      (col1_header, col2_header, col3_header, col4_header, col5_header)] ++
    [separatorLine w1 w2 w3 w4 w5] ++
    td.map (rowLine w1 w2 w3 w4 w5)

/-- The full `lines` list built by `generate_markdown_table`; `now` is the
already-formatted `datetime.now().strftime(...)` string. -/
def renderLines (services : List SvcTuple) (now : String) : List String :=
  frontLines services ++ ["", "---", "", "*Last updated: " ++ now ++ "*", ""]

/-- `generate_markdown_table`: `"\n".join(lines)`. -/
def generate_markdown_table (services : List SvcTuple) (now : String) : String :=
  String.intercalate "\n" (renderLines services now)

/-- The filtering loop of `main`: non-deprecated records are appended (as
5-tuples, dropping the flag) in input order. -/
def keepServices : List ServiceRecord → List SvcTuple
  | [] => []
  | r :: rest =>
    if !r.deprecate
    then (r.service_name, r.stream_type, r.drm, r.max_resolution, r.region)
      :: keepServices rest
    else keepServices rest

/-- The `deprecated_count` accumulated by the same loop. -/
def deprecated_count : List ServiceRecord → Nat
  | [] => 0
  | r :: rest => (if r.deprecate then 1 else 0) + deprecated_count rest

/-- `main`, after discovery: `files` pairs each discovered directory name
with its declaration-file text (`none` = unreadable).  Result `none` means
the run returned early and wrote no output file; `some doc` means `doc`
was written to `site.md`. -/
def mainRun (files : List (String × Option String)) (now : String) :
    Option String :=
  if files.isEmpty then none
  else
    let extracted := files.map (fun f => extract_service_info f.1 f.2)
    some (generate_markdown_table (keepServices extracted) now)

example :
    generate_markdown_table [("amazon_prime", "HLS", true, "1080p", "IT")] "T" =
    "# Services Overview\n\n| Site Name    | Stream Type | DRM | Max Resolution | Region |\n|--------------|-------------|-----|----------------|--------|\n| Amazon Prime | HLS         | ✅   | 1080p          | IT     |\n\n---\n\n*Last updated: T*\n" := by
  rfl

/-! ### General lemmas about the embedding -/

theorem reSearch_eq_none_iff {α : Type} (attr : List Char)
    (tail : List Char → Option α) :
    ∀ s : List Char,
      reSearch attr tail s = none ↔
        ∀ i, matchAttrAt attr tail (List.drop i s) = none := by
  intro s
  induction s with
  | nil =>
    simp only [reSearch, List.drop_nil]
    constructor
    · intro h i; exact h
    · intro h; exact h 0
  | cons c rest ih =>
    simp only [reSearch]
    cases hm : matchAttrAt attr tail (c :: rest) with
    | some v =>
      simp only [reduceCtorEq, false_iff, not_forall]
      exact ⟨0, by simp [hm]⟩
    | none =>
      rw [ih]
      constructor
      · intro h i
        cases i with
        | zero => simpa using hm
        | succ j => simpa using h j
      · intro h j
        simpa using h (j + 1)

theorem reSearch_eq_some_of_leftmost {α : Type} (attr : List Char)
    (tail : List Char → Option α) :
    ∀ (s : List Char) (i : Nat) (v : α),
      matchAttrAt attr tail (List.drop i s) = some v →
      (∀ j, j < i → matchAttrAt attr tail (List.drop j s) = none) →
      reSearch attr tail s = some v := by
  intro s
  induction s with
  | nil =>
    intro i v hv _
    simp only [List.drop_nil] at hv
    simpa [reSearch] using hv
  | cons c rest ih =>
    intro i v hv hnone
    cases i with
    | zero =>
      simp only [List.drop_zero] at hv
      simp [reSearch, hv]
    | succ j =>
      have h0 : matchAttrAt attr tail (c :: rest) = none := by
        simpa using hnone 0 (Nat.succ_pos j)
      simp only [reSearch, h0]
      exact ih j v (by simpa using hv)
        (fun k hk => by simpa using hnone (k + 1) (Nat.succ_lt_succ hk))

theorem foldl_max_init_le {α : Type} (f : α → Nat) :
    ∀ (l : List α) (a : Nat), a ≤ l.foldl (fun m x => max m (f x)) a := by
  intro l
  induction l with
  | nil => intro a; exact Nat.le_refl a
  | cons x xs ih =>
    intro a
    exact Nat.le_trans (Nat.le_max_left a (f x)) (ih (max a (f x)))

theorem foldl_max_mem_le {α : Type} (f : α → Nat) :
    ∀ (l : List α) (a : Nat) (x : α), x ∈ l →
      f x ≤ l.foldl (fun m x => max m (f x)) a := by
  intro l
  induction l with
  | nil => intro a x hx; exact absurd hx (List.not_mem_nil x)
  | cons y ys ih =>
    intro a x hx
    rcases List.mem_cons.mp hx with h | h
    · subst h
      exact Nat.le_trans (Nat.le_max_right a (f x))
        (foldl_max_init_le f ys (max a (f x)))
    · exact ih (max a (f y)) x h

theorem foldl_max_attained {α : Type} (f : α → Nat) :
    ∀ (l : List α) (a : Nat),
      l.foldl (fun m x => max m (f x)) a = a ∨
        ∃ x ∈ l, l.foldl (fun m x => max m (f x)) a = f x := by
  intro l
  induction l with
  | nil => intro a; exact Or.inl rfl
  | cons y ys ih =>
    intro a
    rcases ih (max a (f y)) with h | ⟨x, hx, hfx⟩
    · rcases Nat.le_total a (f y) with hle | hle
      · refine Or.inr ⟨y, List.mem_cons_self y ys, ?_⟩
        simpa [Nat.max_eq_right hle] using h
      · refine Or.inl ?_
        simpa [Nat.max_eq_left hle] using h
    · exact Or.inr ⟨x, List.mem_cons_of_mem y hx, hfx⟩

theorem pyLjust_length (s : String) (w : Nat) :
    (pyLjust s w).length = max s.length w := by
  simp only [pyLjust, String.length_append]
  have h : (String.mk (List.replicate (w - s.length) ' ')).length
      = w - s.length := by
    show (List.replicate (w - s.length) ' ').length = w - s.length
    exact List.length_replicate _ _
  omega

theorem pyStrLe_total : ∀ a b : List Char, pyStrLe a b || pyStrLe b a := by
  intro a
  induction a with
  | nil => intro b; simp [pyStrLe]
  | cons x xs ih =>
    intro b
    cases b with
    | nil => simp [pyStrLe]
    | cons y ys =>
      simp only [pyStrLe]
      rcases Nat.lt_trichotomy x.toNat y.toNat with h | h | h
      · simp [h, Nat.not_lt.mpr (Nat.le_of_lt h)]
      · simp [h, Nat.lt_irrefl, ih ys]
      · simp [h, Nat.not_lt.mpr (Nat.le_of_lt h)]

theorem pyStrLe_trans :
    ∀ a b c : List Char, pyStrLe a b → pyStrLe b c → pyStrLe a c := by
  intro a
  induction a with
  | nil => intro b c _ _; simp [pyStrLe]
  | cons x xs ih =>
    intro b c hab hbc
    cases b with
    | nil => simp [pyStrLe] at hab
    | cons y ys =>
      cases c with
      | nil => simp [pyStrLe] at hbc
      | cons z zs =>
        simp only [pyStrLe] at hab hbc ⊢
        rcases Nat.lt_trichotomy x.toNat y.toNat with h1 | h1 | h1
        · rcases Nat.lt_trichotomy y.toNat z.toNat with h2 | h2 | h2
          · simp [Nat.lt_trans h1 h2]
          · simp [h2 ▸ h1]
          · rw [if_neg (by omega), if_pos h2] at hbc
            exact absurd hbc (by simp)
        · rcases Nat.lt_trichotomy y.toNat z.toNat with h2 | h2 | h2
          · simp [h1 ▸ h2]
          · rw [if_neg (by omega), if_neg (by omega)] at hab hbc ⊢
            exact ih ys zs hab hbc
          · rw [if_neg (by omega), if_pos h2] at hbc
            exact absurd hbc (by simp)
        · rw [if_neg (by omega), if_pos h1] at hab
          exact absurd hab (by simp)

instance : IsTotal SvcTuple sortLe :=
  ⟨fun a b => by
    have h := pyStrLe_total (lowerKey a.1) (lowerKey b.1)
    rcases Bool.or_eq_true_iff.mp h with h1 | h1
    · exact Or.inl h1
    · exact Or.inr h1⟩

instance : IsTrans SvcTuple sortLe :=
  ⟨fun a b c hab hbc => pyStrLe_trans (lowerKey a.1) (lowerKey b.1)
    (lowerKey c.1) hab hbc⟩

theorem pyTitleGo_length : ∀ (b : Bool) (cs : List Char),
    (pyTitleGo b cs).length = cs.length := by
  intro b cs
  induction cs generalizing b with
  | nil => rfl
  | cons c rest ih => simp [pyTitleGo, ih]

theorem pyTitleGo_getD (d : Char) :
    ∀ (cs : List Char) (b : Bool) (i : Nat), i < cs.length →
      (pyTitleGo b cs).getD i d =
        (let c := cs.getD i d
         let prev := if i = 0 then b else (cs.getD (i - 1) d).isAlpha
         if c.isAlpha then (if prev then c.toLower else c.toUpper) else c) := by
  intro cs
  induction cs with
  | nil => intro b i hi; exact absurd hi (by simp)
  | cons c rest ih =>
    intro b i hi
    cases i with
    | zero => simp [pyTitleGo]
    | succ j =>
      have hj : j < rest.length := by simpa using hi
      have := ih c.isAlpha j hj
      simp only [pyTitleGo, List.getD_cons_succ]
      rw [this]
      cases j with
      | zero => simp
      | succ k => simp

theorem keepServices_eq_filter_map (records : List ServiceRecord) :
    keepServices records =
      (records.filter (fun r => !r.deprecate)).map
        (fun r => (r.service_name, r.stream_type, r.drm,
          r.max_resolution, r.region)) := by
  induction records with
  | nil => rfl
  | cons r rest ih =>
    cases hd : r.deprecate
    · simp [keepServices, List.filter_cons, hd, ih]
    · simp [keepServices, List.filter_cons, hd, ih]

theorem deprecated_count_eq_countP (records : List ServiceRecord) :
    deprecated_count records = records.countP (fun r => r.deprecate) := by
  induction records with
  | nil => rfl
  | cons r rest ih =>
    cases hd : r.deprecate
    · simp [deprecated_count, List.countP_cons, hd, ih]
    · simp [deprecated_count, List.countP_cons, hd, ih]
      omega

/-! ### The claims -/

/-- C2: for every list of kept records, the data rows of the rendered table
appear in case-insensitive ascending order (lexicographic on code points)
of the underlying directory-derived service name — the sort happens before
the display transform, so the key is the raw `name`, not the label. -/
theorem spec_c2 (services : List SvcTuple) :
    List.Pairwise
      (fun a b : SvcTuple => pyStrLe (lowerKey a.1) (lowerKey b.1) = true)
      (sortServices services) ∧
    (sortServices services).Perm services ∧
    table_data services = (sortServices services).map displayRow :=
  ⟨List.sorted_insertionSort sortLe services,
    List.perm_insertionSort sortLe services, rfl⟩

/-- C3: deprecated records contribute no row, every non-deprecated record
contributes exactly one row (the kept list is the order-preserving
filter-then-project of the extracted records, and the table has one data
row per kept record), and the diagnostic count equals the number of
records whose deprecated flag is true. -/
theorem spec_c3 (records : List ServiceRecord) :
    keepServices records =
      (records.filter (fun r => !r.deprecate)).map
        (fun r => (r.service_name, r.stream_type, r.drm,
          r.max_resolution, r.region)) ∧
    deprecated_count records = records.countP (fun r => r.deprecate) ∧
    (table_data (keepServices records)).length =
      (records.filter (fun r => !r.deprecate)).length := by
  refine ⟨keepServices_eq_filter_map records,
    deprecated_count_eq_countP records, ?_⟩
  have h1 : (table_data (keepServices records)).length
      = (keepServices records).length := by
    unfold table_data sortServices
    rw [List.length_map]
    exact (List.perm_insertionSort sortLe (keepServices records)).length_eq
  rw [h1, keepServices_eq_filter_map records, List.length_map]

/-- C6: extraction is total — one record per discovered file, with the
name always the directory-derived name; on read/decode failure (`none`)
every other field is at its default (`"N/A"`, `false`). -/
theorem spec_c6 (service_name : String) :
    extract_service_info service_name none =
      { service_name := service_name, stream_type := "N/A", drm := false,
        deprecate := false, max_resolution := "N/A", region := "N/A" } ∧
    ∀ content : Option String,
      (extract_service_info service_name content).service_name
        = service_name := by
  refine ⟨rfl, ?_⟩
  intro content
  cases content <;> rfl

/-- C7: when discovery yields no files, `main` returns before rendering or
writing; the output file is written (result `some`) exactly when the file
list is nonempty. -/
theorem spec_c7 (files : List (String × Option String)) (now : String) :
    mainRun files now = none ↔ files = [] := by
  cases files with
  | nil => simp [mainRun]
  | cons f rest => simp [mainRun]

/-- A declaration text whose `_stream_type` value is opened by a double
quote and closed by a single quote. -/
def mismatchedQuoteInput : String := "_stream_type = \"HLS" ++ String.mk [squote]

/-- C10: the quote characters of the string patterns are matched
independently (`["\']` on each side), so a value delimited by a double
quote on the left and a single quote on the right is still extracted. -/
theorem spec_c10 :
    (extract_service_info "svc" (some mismatchedQuoteInput)).stream_type
      = "HLS" := by
  decide

/-- What C1 asserts of one column: the computed width is the maximum of
the header length and all row-value lengths in that column, and padding
header and cells with `ljust` yields exactly that width. -/
def colSpec (hdr : String) (cell : RowTuple → String) (w : Nat)
    (td : List RowTuple) : Prop :=
  hdr.length ≤ w ∧
  (∀ r ∈ td, (cell r).length ≤ w) ∧
  (w = hdr.length ∨ ∃ r ∈ td, w = (cell r).length) ∧
  (pyLjust hdr w).length = w ∧
  (∀ r ∈ td, (pyLjust (cell r) w).length = w)

theorem colSpec_foldl (hdr : String) (cell : RowTuple → String)
    (td : List RowTuple) :
    colSpec hdr cell
      (td.foldl (fun m r => max m (cell r).length) hdr.length) td := by
  have hinit := foldl_max_init_le (fun r => (cell r).length) td hdr.length
  have hmem := fun r hr =>
    foldl_max_mem_le (fun r => (cell r).length) td hdr.length r hr
  refine ⟨hinit, hmem, foldl_max_attained (fun r => (cell r).length) td
    hdr.length, ?_, ?_⟩
  · rw [pyLjust_length]
    exact Nat.max_eq_right hinit
  · intro r hr
    rw [pyLjust_length]
    exact Nat.max_eq_right (hmem r hr)

/-- C1: in the rendered table each of the five column widths equals the
maximum of the header-text length and all row-value lengths in that
column, and the left-justified padding of the header and of every data
cell has exactly that width. -/
theorem spec_c1 (services : List SvcTuple) :
    colSpec col1_header (fun r => r.1)
      (max_col1 (table_data services)) (table_data services) ∧
    colSpec col2_header (fun r => r.2.1)
      (max_col2 (table_data services)) (table_data services) ∧
    colSpec col3_header (fun r => r.2.2.1)
      (max_col3 (table_data services)) (table_data services) ∧
    colSpec col4_header (fun r => r.2.2.2.1)
      (max_col4 (table_data services)) (table_data services) ∧
    colSpec col5_header (fun r => r.2.2.2.2)
      (max_col5 (table_data services)) (table_data services) :=
  ⟨colSpec_foldl col1_header (fun r => r.1) (table_data services),
    colSpec_foldl col2_header (fun r => r.2.1) (table_data services),
    colSpec_foldl col3_header (fun r => r.2.2.1) (table_data services),
    colSpec_foldl col4_header (fun r => r.2.2.2.1) (table_data services),
    colSpec_foldl col5_header (fun r => r.2.2.2.2) (table_data services)⟩

/-- A concrete two-service input used to instantiate quantified claims. -/
def demoServices : List SvcTuple :=
  [("amazon_prime", "HLS", true, "1080p", "IT"),
   ("cb01", "MP4", false, "720p", "N/A")]

/-- Witness for C1 at a concrete table: the padded first-column cell of a
concrete data row has exactly the computed first-column width. -/
theorem spec_c1_witness :
    (pyLjust "Amazon Prime" (max_col1 (table_data demoServices))).length
      = max_col1 (table_data demoServices) :=
  (spec_c1 demoServices).1.2.2.2.2
    ("Amazon Prime", "HLS", "✅", "1080p", "IT") (by decide)

/-- C4: for each recognized boolean attribute, if the pattern matches
anywhere then the extracted boolean is the truth value of the leftmost
matched literal (`True` ↦ true, `False` ↦ false); if no position matches,
the field is false. -/
theorem spec_c4 (service_name content : String) :
    ((∀ i, matchBoolAt "_drm" content i = none) →
      (extract_service_info service_name (some content)).drm = false) ∧
    (∀ i b, matchBoolAt "_drm" content i = some b →
      (∀ j, j < i → matchBoolAt "_drm" content j = none) →
      (extract_service_info service_name (some content)).drm = b) ∧
    ((∀ i, matchBoolAt "_deprecate" content i = none) →
      (extract_service_info service_name (some content)).deprecate = false) ∧
    (∀ i b, matchBoolAt "_deprecate" content i = some b →
      (∀ j, j < i → matchBoolAt "_deprecate" content j = none) →
      (extract_service_info service_name (some content)).deprecate = b) := by
  have hdrm : (extract_service_info service_name (some content)).drm =
      (match reSearch "_drm".data matchBoolTail content.data with
       | some b => b
       | none => false) := rfl
  have hdep : (extract_service_info service_name (some content)).deprecate =
      (match reSearch "_deprecate".data matchBoolTail content.data with
       | some b => b
       | none => false) := rfl
  refine ⟨?_, ?_, ?_, ?_⟩
  · intro h
    rw [hdrm, (reSearch_eq_none_iff "_drm".data matchBoolTail
      content.data).mpr h]
  · intro i b hm hleft
    rw [hdrm, reSearch_eq_some_of_leftmost "_drm".data matchBoolTail
      content.data i b hm hleft]
  · intro h
    rw [hdep, (reSearch_eq_none_iff "_deprecate".data matchBoolTail
      content.data).mpr h]
  · intro i b hm hleft
    rw [hdep, reSearch_eq_some_of_leftmost "_deprecate".data matchBoolTail
      content.data i b hm hleft]

/-- Witness for C4: a file declaring `_drm = True` at position 0 extracts
`drm = true`. -/
theorem spec_c4_witness :
    (extract_service_info "svc" (some "_drm = True")).drm = true :=
  (spec_c4 "svc" "_drm = True").2.1 0 true (by decide)
    (fun j hj => absurd hj (Nat.not_lt_zero j))

theorem matchStrTail_all (allowed : Char → Bool) (s v : List Char)
    (h : matchStrTail allowed s = some v) : v.all allowed = true := by
  unfold matchStrTail at h
  split at h
  · split at h
    · split at h
      · split at h
        · exact absurd h (by simp)
        · split at h
          · split at h
            · injection h with hv
              subst hv
              rw [List.all_eq_true]
              intro c hc
              exact List.mem_takeWhile_imp hc
            · exact absurd h (by simp)
          · exact absurd h (by simp)
      · exact absurd h (by simp)
    · exact absurd h (by simp)
  · exact absurd h (by simp)

/-- What C5 asserts of one quoted-string field: leftmost-match extraction
of the text between the quotes (all captured characters are in the
repeated class, hence no quote is included), defaulting to `"N/A"`. -/
def strFieldSpec (attr : String) (allowed : Char → Bool)
    (field : ServiceRecord → String) (service_name content : String) : Prop :=
  ((∀ i, matchStrAt attr allowed content i = none) →
    field (extract_service_info service_name (some content)) = "N/A") ∧
  (∀ i v, matchStrAt attr allowed content i = some v →
    (∀ j, j < i → matchStrAt attr allowed content j = none) →
    field (extract_service_info service_name (some content)) = String.mk v ∧
      v.all allowed = true)

theorem strFieldSpec_of (attr : String) (allowed : Char → Bool)
    (field : ServiceRecord → String) (service_name content : String)
    (hfield : field (extract_service_info service_name (some content)) =
      (match reSearch attr.data (matchStrTail allowed) content.data with
       | some v => String.mk v
       | none => "N/A")) :
    strFieldSpec attr allowed field service_name content := by
  constructor
  · intro h
    rw [hfield, (reSearch_eq_none_iff attr.data (matchStrTail allowed)
      content.data).mpr h]
  · intro i v hm hleft
    have hs := reSearch_eq_some_of_leftmost attr.data (matchStrTail allowed)
      content.data i v hm hleft
    refine ⟨by rw [hfield, hs], ?_⟩
    unfold matchStrAt matchAttrAt at hm
    split at hm
    · exact matchStrTail_all allowed _ v hm
    · exact absurd hm (by simp)

/-- C5: for each recognized quoted-string attribute, a leftmost pattern
match extracts exactly the characters captured between the two quote
delimiters (all in the repeated class, so no quote and nothing outside it
is included); with no match the field is `"N/A"`.  The last two conjuncts
record that neither repeated class contains a quote character. -/
theorem spec_c5 (service_name content : String) :
    strFieldSpec "_stream_type" isWordChar (fun r => r.stream_type)
      service_name content ∧
    strFieldSpec "_maxResolution" isWordOrSpaceChar (fun r => r.max_resolution)
      service_name content ∧
    strFieldSpec "_region" isWordOrSpaceChar (fun r => r.region)
      service_name content ∧
    (∀ c, isWordChar c = true → isQuoteChar c = false) ∧
    (∀ c, isWordOrSpaceChar c = true → isQuoteChar c = false) := by
  refine ⟨strFieldSpec_of _ _ _ _ _ rfl, strFieldSpec_of _ _ _ _ _ rfl,
    strFieldSpec_of _ _ _ _ _ rfl, ?_, ?_⟩
  · intro c hw
    cases hq : isQuoteChar c
    · rfl
    · have hcq : c = '"' ∨ c = squote := by
        simpa [isQuoteChar] using hq
      rcases hcq with rfl | rfl
      · exact absurd hw (by decide)
      · exact absurd hw (by decide)
  · intro c hw
    cases hq : isQuoteChar c
    · rfl
    · have hcq : c = '"' ∨ c = squote := by
        simpa [isQuoteChar] using hq
      rcases hcq with rfl | rfl
      · exact absurd hw (by decide)
      · exact absurd hw (by decide)

/-- Witness for C5: a file declaring `_region = "EU west"` at position 0
extracts exactly the text between the quotes. -/
theorem spec_c5_witness :
    (extract_service_info "svc" (some "_region = \"EU west\"")).region
      = "EU west" :=
  ((spec_c5 "svc" "_region = \"EU west\"").2.2.1.2 0 "EU west".data
    (by decide) (fun j hj => absurd hj (Nat.not_lt_zero j))).1

/-- C8: the display label is the service name with underscores replaced by
spaces and title-cased — position `i` of the title-cased text is the
uppercased character exactly when it is alphabetic and starts a word
(position 0 or preceded by a non-alphabetic character), the lowercased
character when alphabetic mid-word, and unchanged otherwise — and the DRM
column shows `✅` when `drm` is true and `❌` when it is false. -/
theorem spec_c8 (service_name stream_type : String) (drm : Bool)
    (max_resolution region : String) :
    displayRow (service_name, stream_type, drm, max_resolution, region) =
      (pyTitle (replaceUnderscores service_name), stream_type,
        if drm then "✅" else "❌", max_resolution, region) ∧
    (∀ cs : List Char, (pyTitleGo false cs).length = cs.length) ∧
    (∀ (cs : List Char) (d : Char) (i : Nat), i < cs.length →
      (pyTitleGo false cs).getD i d =
        (if (cs.getD i d).isAlpha then
          (if i = 0 ∨ (cs.getD (i - 1) d).isAlpha = false
           then (cs.getD i d).toUpper
           else (cs.getD i d).toLower)
         else cs.getD i d)) := by
  refine ⟨rfl, fun cs => pyTitleGo_length false cs, ?_⟩
  intro cs d i hi
  rw [pyTitleGo_getD d cs false i hi]
  cases i with
  | zero => simp
  | succ j =>
    simp only [Nat.succ_ne_zero, if_false, false_or, Nat.add_sub_cancel]
    cases h : (cs.getD j d).isAlpha <;> simp [h]

/-- Witness for C8 at a concrete label: the first character of the
title-cased form of `"amazon prime"` is the uppercased `a`. -/
theorem spec_c8_witness :
    (pyTitleGo false "amazon prime".data).getD 0 'z' = 'A' := by
  have h := (spec_c8 "a" "b" true "c" "d").2.2 "amazon prime".data 'z' 0
    (by decide)
  rw [h]
  decide

/-- C9: for fixed inputs the pipeline is a pure function of the input
texts and the timestamp: two runs succeed or skip writing together, the
rendered documents have the same line count, agree on every line except
the single `*Last updated: ...*` line (at index length − 2), and that
line is exactly the timestamp line. -/
theorem spec_c9 (files : List (String × Option String)) (now1 now2 : String)
    (services : List SvcTuple) :
    ((mainRun files now1).isSome ↔ (mainRun files now2).isSome) ∧
    (renderLines services now1).length = (renderLines services now2).length ∧
    (∀ i, i ≠ (renderLines services now1).length - 2 →
      (renderLines services now1).getD i ""
        = (renderLines services now2).getD i "") ∧
    (renderLines services now1).getD
        ((renderLines services now1).length - 2) ""
      = "*Last updated: " ++ now1 ++ "*" := by
  have hlen : ∀ now : String,
      (renderLines services now).length = (frontLines services).length + 5 := by
    intro now
    simp [renderLines]
  refine ⟨?_, ?_, ?_, ?_⟩
  · cases files <;> simp [mainRun]
  · rw [hlen now1, hlen now2]
  · intro i hi
    rw [hlen now1] at hi
    rcases Nat.lt_or_ge i (frontLines services).length with hlt | hge
    · rw [renderLines, renderLines, List.getD_append _ _ _ _ hlt,
        List.getD_append _ _ _ _ hlt]
    · have hi3 : i - (frontLines services).length ≠ 3 := by omega
      rw [renderLines, renderLines, List.getD_append_right _ _ _ _ hge,
        List.getD_append_right _ _ _ _ hge]
      rcases hk : i - (frontLines services).length with _ | _ | _ | j
      · rfl
      · rfl
      · rfl
      · cases j with
        | zero => exact absurd hk hi3
        | succ k => simp only [List.getD_cons_succ]
  · have hge : (frontLines services).length
        ≤ (frontLines services).length + 5 - 2 := by omega
    rw [hlen now1, renderLines, List.getD_append_right _ _ _ _ hge]
    have hk : (frontLines services).length + 5 - 2
        - (frontLines services).length = 3 := by omega
    rw [hk]
    rfl

/-- Witness for C9: with no services, the first rendered line is the same
for two different timestamps. -/
theorem spec_c9_witness :
    (renderLines [] "2024-01-01 00:00:00").getD 0 ""
      = (renderLines [] "2025-06-30 12:34:56").getD 0 "" :=
  (spec_c9 [] "2024-01-01 00:00:00" "2025-06-30 12:34:56" []).2.2.1 0
    (by decide)

end GenServicesTable
